import Mathlib

/-!
Shallow embedding of the WebAccessTool search / extraction pipeline
(`webaccess/search_engine.py`, `webaccess/search_&_extract.py`).

Strings are modelled as `List Char` (named `Str` below) so that the
Python string operations used by the source (`in`, `split(sep, 1)`,
`replace`, `startswith`, `urllib.parse.unquote`) can be given exact
executable definitions.
-/

/-- Python strings, modelled as lists of characters. -/
abbrev Str := List Char

/-- Python `sub in s` (substring containment). -/
def pyContains (sub : Str) : Str → Bool
  | [] => sub.isEmpty
  | c :: rest => sub.isPrefixOf (c :: rest) || pyContains sub rest

/-- Python `s.split(sep, 1)[1]` for the call sites of `_normalize_url`,
where the guard `sep' in s` (with `sep` a prefix of `sep'`) guarantees the
separator occurs.  Returns everything after the first occurrence of `sep`;
the `[]` fallback for an absent separator is unreachable at those call
sites (Python would raise `IndexError` there). -/
def pySplitAfter (sep : Str) : Str → Str
  | [] => []
  | c :: rest =>
    if sep.isPrefixOf (c :: rest) then (c :: rest).drop sep.length
    else pySplitAfter sep rest

/-- Python `s.split(sep, 1)[0]`: everything before the first occurrence of
`sep`, or all of `s` when `sep` does not occur (Python returns `[s]` then,
so index 0 is `s` itself). -/
def pySplitBefore (sep : Str) : Str → Str
  | [] => []
  | c :: rest =>
    if sep.isPrefixOf (c :: rest) then []
    else c :: pySplitBefore sep rest

/-- Hexadecimal value of a character, as used by `urllib.parse.unquote`
(`string.hexdigits`: both lower and upper case accepted). -/
def hexVal (c : Char) : Option Nat :=
  if '0' ≤ c ∧ c ≤ '9' then some (c.toNat - '0'.toNat)
  else if 'a' ≤ c ∧ c ≤ 'f' then some (c.toNat - 'a'.toNat + 10)
  else if 'A' ≤ c ∧ c ≤ 'F' then some (c.toNat - 'A'.toNat + 10)
  else none

/-- Model of `urllib.parse.unquote` (an external stdlib collaborator):
each valid `%XX` escape is decoded to the character with code `XX`;
invalid escapes are kept verbatim, exactly as in CPython.  Multi-byte
UTF-8 escape sequences (codes ≥ 0x80 combining into one code point) are
modelled as individual characters; the claims considered only involve
ASCII escapes, for which this model agrees with CPython. -/
def unquote : Str → Str
  | [] => []
  | c :: rest =>
    if c = '%' then
      match rest with
      | a :: b :: rest2 =>
        match hexVal a, hexVal b with
        | some hi, some lo => Char.ofNat (16 * hi + lo) :: unquote rest2
        | _, _ => '%' :: unquote (a :: b :: rest2)
      | short => '%' :: unquote short
    else c :: unquote rest

/-- `_normalize_url` from `search_engine.py` lines 10-23: strip the
DuckDuckGo (`uddg=`) and Yahoo (`/RU=`) redirect wrapping, replace
spaces by `+`, percent-decode; empty input maps to the empty string. -/
def _normalize_url (url : Str) : Str :=
  let url1 :=
    if pyContains ("uddg=http".toList) url then
      let u := pySplitAfter ("uddg=".toList) url
      if pyContains ("&rut=".toList) u then pySplitBefore ("&rut=".toList) u else u
    else url
  let url2 :=
    if pyContains ("/RU=http".toList) url1 then
      let u := pySplitAfter ("/RU=".toList) url1
      if pyContains ("/RK=2/RS".toList) u then pySplitBefore ("/RK=2/RS=".toList) u else u
    else url1
  if url2.isEmpty then [] else unquote (url2.map fun c => if c = ' ' then '+' else c)

/-!
Provider parsers (`_search_google` / `_search_bing` / `_search_yahoo` /
`_search_duckduckgo`, `search_engine.py` lines 35-115).

The HTML fetch and the `lxml` xpath selection are external collaborators;
what each parser's loop actually consumes is, per selected element, the
first string of the inner href xpath (`./a/@href` or `./span/a/@href`,
`none` when the xpath matched nothing) and, for Yahoo, the element's
`class` attribute.  An `Elem` records exactly that. -/
structure Elem where
  href : Option Str
  cls : Option Str
deriving DecidableEq

/-- Loop body of `_search_google` (lines 43-51): keep the normalized href
when it is non-empty, not yet in the cache and starts with `"http"`. -/
def googleLoop (cache : List Str) : List Elem → List Str
  | [] => []
  | e :: es =>
    match e.href with
    | none => googleLoop cache es
    | some raw =>
      if raw = [] then googleLoop cache es
      else
        let href := _normalize_url raw
        if href ≠ [] ∧ href ∉ cache ∧ ("http".toList).isPrefixOf href = true then
          href :: googleLoop (href :: cache) es
        else googleLoop cache es

/-- Loop body of `_search_bing` (lines 65-76): same as Google's up to the
(order-irrelevant) swap of the cache test and the `startswith` test. -/
def bingLoop (cache : List Str) : List Elem → List Str
  | [] => []
  | e :: es =>
    match e.href with
    | none => bingLoop cache es
    | some raw =>
      if raw = [] then bingLoop cache es
      else
        let href := _normalize_url raw
        if href ≠ [] ∧ ("http".toList).isPrefixOf href = true ∧ href ∉ cache then
          href :: bingLoop (href :: cache) es
        else bingLoop cache es

/-- Loop body of `_search_yahoo` (lines 87-95): keep the normalized href
when it is non-empty, the element's class attribute equals `'d-ib v-v'`
and it is not yet in the cache.  There is no `startswith("http")` test. -/
def yahooLoop (cache : List Str) : List Elem → List Str
  | [] => []
  | e :: es =>
    match e.href with
    | none => yahooLoop cache es
    | some raw =>
      if raw = [] then yahooLoop cache es
      else
        let href := _normalize_url raw
        if href ≠ [] ∧ e.cls = some ("d-ib v-v".toList) ∧ href ∉ cache then
          href :: yahooLoop (href :: cache) es
        else yahooLoop cache es

/-- Loop body of `_search_duckduckgo` (lines 106-114): keep every
non-empty normalized href not yet in the cache.  There is no
`startswith("http")` test. -/
def ddgLoop (cache : List Str) : List Elem → List Str
  | [] => []
  | e :: es =>
    match e.href with
    | none => ddgLoop cache es
    | some raw =>
      if raw = [] then ddgLoop cache es
      else
        let href := _normalize_url raw
        if href ≠ [] ∧ href ∉ cache then
          href :: ddgLoop (href :: cache) es
        else ddgLoop cache es

/-- `_search_google` parsing phase: input is the xpath result `//div`
(`none` models the `not isinstance(elements, list)` guard of lines 41-42,
which returns `[]`). -/
def _search_google (elements : Option (List Elem)) : List Str :=
  match elements with
  | none => []
  | some es => googleLoop [] es

/-- `_search_bing` parsing phase (xpath `//h2`), lines 62-77. -/
def _search_bing (elements : Option (List Elem)) : List Str :=
  match elements with
  | none => []
  | some es => bingLoop [] es

/-- `_search_yahoo` parsing phase (xpath `//div`), lines 84-96. -/
def _search_yahoo (elements : Option (List Elem)) : List Str :=
  match elements with
  | none => []
  | some es => yahooLoop [] es

/-- `_search_duckduckgo` parsing phase (xpath `//div[h2]`), lines 103-115. -/
def _search_duckduckgo (elements : Option (List Elem)) : List Str :=
  match elements with
  | none => []
  | some es => ddgLoop [] es

/-!
First-occurrence deduplication, the specification-side counterpart of the
`cache` set threaded through every parser loop and of
`list(dict.fromkeys(results))` in auto mode. -/

/-- Keep the first occurrence of every element not already in `seen`. -/
def dedupFirstAux (seen : List Str) : List Str → List Str
  | [] => []
  | x :: xs =>
    if x ∈ seen then dedupFirstAux seen xs
    else x :: dedupFirstAux (x :: seen) xs

/-- First-occurrence deduplication (Python `list(dict.fromkeys(l))`). -/
def dedupFirst (l : List Str) : List Str := dedupFirstAux [] l

/-- Number of entries that repeat an earlier entry (or one in `seen`). -/
def dupCountAux (seen : List Str) : List Str → Nat
  | [] => 0
  | x :: xs =>
    if x ∈ seen then 1 + dupCountAux seen xs
    else dupCountAux (x :: seen) xs

/-- Candidate URLs of the Google loop: normalized hrefs of the elements
matching Google's structural rule (href present and non-empty, normalized
form non-empty and starting with `"http"`), duplicates retained. -/
def googleCand : List Elem → List Str
  | [] => []
  | e :: es =>
    match e.href with
    | none => googleCand es
    | some raw =>
      if raw = [] then googleCand es
      else
        let href := _normalize_url raw
        if href ≠ [] ∧ ("http".toList).isPrefixOf href = true then href :: googleCand es
        else googleCand es

/-- Candidate URLs of the Bing loop (same rule as Google's). -/
def bingCand : List Elem → List Str
  | [] => []
  | e :: es =>
    match e.href with
    | none => bingCand es
    | some raw =>
      if raw = [] then bingCand es
      else
        let href := _normalize_url raw
        if href ≠ [] ∧ ("http".toList).isPrefixOf href = true then href :: bingCand es
        else bingCand es

/-- Candidate URLs of the Yahoo loop: non-empty normalized hrefs of
elements whose class attribute is `'d-ib v-v'`. -/
def yahooCand : List Elem → List Str
  | [] => []
  | e :: es =>
    match e.href with
    | none => yahooCand es
    | some raw =>
      if raw = [] then yahooCand es
      else
        let href := _normalize_url raw
        if href ≠ [] ∧ e.cls = some ("d-ib v-v".toList) then href :: yahooCand es
        else yahooCand es

/-- Candidate URLs of the DuckDuckGo loop: every non-empty normalized
href. -/
def ddgCand : List Elem → List Str
  | [] => []
  | e :: es =>
    match e.href with
    | none => ddgCand es
    | some raw =>
      if raw = [] then ddgCand es
      else
        let href := _normalize_url raw
        if href ≠ [] then href :: ddgCand es
        else ddgCand es

/-!
`SearchEngine.search` (`search_engine.py` lines 117-146).

The fetch collaborator and the xpath step are modelled by an environment
`env : Str → Except Str (Option (List Elem))` giving, per provider name,
either the exception raised by `fetch.get` / parsing (`error`) or the
selected elements (`ok`; `ok none` is the non-list xpath guard).  Auto
mode's `random.sample(engines, 2)` outcome is the parameter `chosen`, and
the `as_completed` arrival order of its two futures is `firstDone`
(`true` = the first submitted future completes first). -/

/-- `SearchEngine(provider=eng).search(query, num_results)` for the
concrete engine names drawn by auto mode from
`engines = ['google', 'bing', 'yahoo', 'duckduckgo']`; the same dispatch
chain as `search`, whose `auto` branch is unreachable for these names. -/
def subSearch (env : Str → Except Str (Option (List Elem))) (p : Str) (k : Nat) :
    Except Str (List Str) :=
  if p = "google".toList then (env p).map fun es => (_search_google es).take k
  else if p = "bing".toList then (env p).map fun es => (_search_bing es).take k
  else if p = "yahoo".toList then (env p).map fun es => (_search_yahoo es).take k
  else if p = "duckduckgo".toList then (env p).map fun es => (_search_duckduckgo es).take k
  else .ok []

/-- Auto mode's `as_completed` collection loop (lines 137-141): extend
with each successful sub-result, `continue` past raised exceptions. -/
def collectOk : List (Except Str (List Str)) → List Str
  | [] => []
  | .ok l :: rest => l ++ collectOk rest
  | .error _ :: rest => collectOk rest

/-- Auto mode's combine step (lines 142-144): first-occurrence
deduplication then truncation to `num_results`. -/
def autoCombine (subs : List (Except Str (List Str))) (k : Nat) : List Str :=
  (dedupFirst (collectOk subs)).take k

/-- `SearchEngine.search` (lines 117-146): dispatch on the provider
string; each concrete branch truncates its parser's output to
`num_results`; `auto` combines the two chosen sub-searches; any other
provider string returns `[]` (line 146). -/
def search (env : Str → Except Str (Option (List Elem))) (p : Str) (k : Nat)
    (chosen : Str × Str) (firstDone : Bool) : Except Str (List Str) :=
  if p = "google".toList ∨ p = "bing".toList ∨ p = "yahoo".toList ∨ p = "duckduckgo".toList then
    subSearch env p k
  else if p = "auto".toList then
    let r1 := subSearch env chosen.1 k
    let r2 := subSearch env chosen.2 k
    .ok (autoCombine (if firstDone then [r1, r2] else [r2, r1]) k)
  else .ok []

/-- Number of `fetch.get` calls issued by `search` per provider string:
each concrete `_search_X` body contains exactly one `self.fetch.get`
call; `auto` submits two concrete sub-searches; any other provider
string reaches the final `else` and fetches nothing. -/
def searchFetchCount (p : Str) : Nat :=
  if p = "google".toList ∨ p = "bing".toList ∨ p = "yahoo".toList ∨ p = "duckduckgo".toList then 1
  else if p = "auto".toList then 2
  else 0

/-- Files written by one concrete provider search: `_search_bing` writes
the fetched page to `'bing.html'` (lines 59-60) whenever its fetch
succeeded; no other provider touches the filesystem. -/
def concreteFileWrites (env : Str → Except Str (Option (List Elem))) (p : Str) : List Str :=
  if p = "bing".toList then
    match env p with
    | .ok _ => [("bing.html".toList)]
    | .error _ => []
  else []

/-- Files written by `search`, per provider string (for `auto`, the
writes of its two chosen sub-searches). -/
def searchFileWrites (env : Str → Except Str (Option (List Elem))) (p : Str)
    (chosen : Str × Str) : List Str :=
  if p = "google".toList ∨ p = "bing".toList ∨ p = "yahoo".toList ∨ p = "duckduckgo".toList then
    concreteFileWrites env p
  else if p = "auto".toList then
    concreteFileWrites env chosen.1 ++ concreteFileWrites env chosen.2
  else []

/-!
`bulk_search` (`search_engine.py` lines 148-180). -/

/-- The per-query record built by `_search_with_error_handling`
(lines 148-155): the `error` key is present exactly when `self.search`
raised. -/
structure SearchRecord where
  query : Str
  urls : List Str
  error : Option Str
deriving DecidableEq

/-- `_search_with_error_handling` (lines 148-155): `searchFn` is the
outcome of `self.search` for a query (raise = `error`). -/
def _search_with_error_handling (searchFn : Str → Except Str (List Str)) (q : Str) :
    SearchRecord :=
  match searchFn q with
  | .ok urls => ⟨q, urls, none⟩
  | .error e => ⟨q, [], some e⟩

/-- Thread-pool execution model for `executor.map`: tasks run in an
arbitrary completion order `order`, each writing only its own indexed
slot; `executor.map` then reads the slots in input-index order. -/
def execSchedule (task : Nat → α) : List Nat → (Nat → Option α) → Nat → Option α
  | [], slots => slots
  | i :: rest, slots => execSchedule task rest fun j => if j = i then some (task i) else slots j

/-- `bulk_search(queries, n, combined=False)` (lines 157-180): one
`_search_with_error_handling` task per query runs on the pool in
completion order `order`; the result is read back in input order.  A
slot is `none` only for an index never executed, which cannot happen
for a completed `executor.map` (hypothesis `∀ i < len, i ∈ order` in the
theorems below).  The pool size `min(10, len(queries))`/`1` (line 168)
affects scheduling only, hence is not part of the value model. -/
def bulk_search (searchFn : Str → Except Str (List Str)) (queries : List Str)
    (order : List Nat) : List (Option SearchRecord) :=
  let task := fun i => _search_with_error_handling searchFn (queries.getD i [])
  let slots := execSchedule task order fun _ => none
  (List.range queries.length).map slots

/-- `bulk_search(queries, n, combined=True)` (lines 172-179): flatten the
records' url lists, skipping records whose list is empty. -/
def bulk_search_combined (searchFn : Str → Except Str (List Str)) (queries : List Str)
    (order : List Nat) : List Str :=
  ((bulk_search searchFn queries order).filterMap id).foldl
    (fun acc r => if r.urls.isEmpty then acc else acc ++ r.urls) []

/-!
`SearchWithExtractor` (`search_&_extract.py`). -/

/-- The single-key dict `{url: content}` returned by
`fetch_site_from_url` on success. -/
structure ExtractionRecord where
  url : Str
  content : Str
deriving DecidableEq

/-- Sort key of `fetch_site_from_url_bulk` line 75:
`len(item[list(item.keys())[0]])`, the character length of the content. -/
def contentLen (r : ExtractionRecord) : Nat := r.content.length

/-- One step of Python `sorted(..., key=len, reverse=True)`: insert
before the first element whose key is not larger, so that among equal
keys the earlier-collected record stays first (Timsort is stable and
`reverse=True` does not reorder equal keys). -/
def insertDesc (x : ExtractionRecord) : List ExtractionRecord → List ExtractionRecord
  | [] => [x]
  | y :: ys => if contentLen y ≤ contentLen x then x :: y :: ys else y :: insertDesc x ys

/-- Python `sorted(results, key=..., reverse=True)` as a stable
descending insertion sort. -/
def pySortDesc : List ExtractionRecord → List ExtractionRecord
  | [] => []
  | x :: xs => insertDesc x (pySortDesc xs)

/-- The `as_completed` collection loop of `fetch_site_from_url_bulk`
(lines 69-72): futures yield in completion order `order` (a permutation
of the url indices); `None` results (`fetch_site_from_url` catches every
exception and returns `None`, lines 36-51) are dropped.  `extractor`
gives each url's outcome (`some content` = the success dict). -/
def collectExtractions (extractor : Str → Option Str) (urls : List Str)
    (order : List Nat) : List ExtractionRecord :=
  order.filterMap fun i =>
    match urls[i]? with
    | some u => (extractor u).map fun c => ⟨u, c⟩
    | none => none

/-- `fetch_site_from_url_bulk` (lines 53-75): the pool is created with
`max_workers=len(urls)` (line 67), and `ThreadPoolExecutor.__init__`
raises `ValueError` when `max_workers` is 0, i.e. exactly when `urls`
is empty; otherwise the collected successes are sorted by content
length, descending, stably. -/
def fetch_site_from_url_bulk (extractor : Str → Option Str) (urls : List Str)
    (order : List Nat) : Except Str (List ExtractionRecord) :=
  if urls.isEmpty then .error ("ValueError: max_workers must be greater than 0".toList)
  else .ok (pySortDesc (collectExtractions extractor urls order))

/-- `auto_search_and_extract` (lines 78-93), `combined=True` path:
bulk-search the queries, bulk-extract the flattened urls, then sort the
(already sorted) output once more (line 92). -/
def auto_search_and_extract (searchFn : Str → Except Str (List Str)) (queries : List Str)
    (sorder : List Nat) (extractor : Str → Option Str) (eorder : List Nat) :
    Except Str (List ExtractionRecord) :=
  let search_results := bulk_search_combined searchFn queries sorder
  match fetch_site_from_url_bulk extractor search_results eorder with
  | .error e => .error e
  | .ok extract_results => .ok (pySortDesc extract_results)

/-!
Lemmas about first-occurrence deduplication. -/

theorem mem_dedupFirstAux {y : Str} :
    ∀ (l : List Str) (seen : List Str), y ∈ dedupFirstAux seen l ↔ y ∈ l ∧ y ∉ seen := by
  intro l
  induction l with
  | nil => intro seen; simp [dedupFirstAux]
  | cons x xs ih =>
    intro seen
    by_cases hx : x ∈ seen
    · simp only [dedupFirstAux, if_pos hx, ih, List.mem_cons]
      constructor
      · rintro ⟨hy, hys⟩; exact ⟨Or.inr hy, hys⟩
      · rintro ⟨hy | hy, hys⟩
        · exact absurd (hy ▸ hx) hys
        · exact ⟨hy, hys⟩
    · simp only [dedupFirstAux, if_neg hx, List.mem_cons, ih]
      constructor
      · rintro (rfl | ⟨hy, hys⟩)
        · exact ⟨Or.inl rfl, hx⟩
        · exact ⟨Or.inr hy, fun h => hys (Or.inr h)⟩
      · rintro ⟨rfl | hy, hys⟩
        · exact Or.inl rfl
        · by_cases hyx : y = x
          · exact Or.inl hyx
          · refine Or.inr ⟨hy, fun h => ?_⟩
            rcases h with h | h
            · exact hyx h
            · exact hys h

theorem nodup_dedupFirstAux : ∀ (l : List Str) (seen : List Str), (dedupFirstAux seen l).Nodup := by
  intro l
  induction l with
  | nil => intro seen; simp [dedupFirstAux]
  | cons x xs ih =>
    intro seen
    by_cases hx : x ∈ seen
    · simpa [dedupFirstAux, if_pos hx] using ih seen
    · simp only [dedupFirstAux, if_neg hx, List.nodup_cons]
      refine ⟨fun hmem => ?_, ih (x :: seen)⟩
      exact ((mem_dedupFirstAux xs (x :: seen)).1 hmem).2 (List.mem_cons_self x seen)

theorem sublist_dedupFirstAux :
    ∀ (l : List Str) (seen : List Str), (dedupFirstAux seen l).Sublist l := by
  intro l
  induction l with
  | nil => intro seen; simp [dedupFirstAux]
  | cons x xs ih =>
    intro seen
    by_cases hx : x ∈ seen
    · simpa [dedupFirstAux, if_pos hx] using (ih seen).cons x
    · simpa [dedupFirstAux, if_neg hx] using (ih (x :: seen)).cons₂ x

theorem length_dedupFirstAux_add_dupCount :
    ∀ (l : List Str) (seen : List Str),
      (dedupFirstAux seen l).length + dupCountAux seen l = l.length := by
  intro l
  induction l with
  | nil => intro seen; simp [dedupFirstAux, dupCountAux]
  | cons x xs ih =>
    intro seen
    by_cases hx : x ∈ seen
    · simp only [dedupFirstAux, dupCountAux, if_pos hx, List.length_cons]
      have := ih seen
      omega
    · simp only [dedupFirstAux, dupCountAux, if_neg hx, List.length_cons]
      have := ih (x :: seen)
      omega

theorem dedupFirstAux_length_le (l : List Str) (seen : List Str) :
    (dedupFirstAux seen l).length ≤ l.length :=
  (sublist_dedupFirstAux l seen).length_le

theorem dedupFirstAux_eq_self :
    ∀ (l : List Str) (seen : List Str), l.Nodup → (∀ y ∈ l, y ∉ seen) →
      dedupFirstAux seen l = l := by
  intro l
  induction l with
  | nil => intro seen _ _; rfl
  | cons x xs ih =>
    intro seen hnd hsep
    have hx : x ∉ seen := hsep x (List.mem_cons_self x xs)
    simp only [dedupFirstAux, if_neg hx]
    refine congrArg (x :: ·) (ih (x :: seen) (List.Nodup.of_cons hnd) ?_)
    intro y hy
    simp only [List.mem_cons, not_or]
    exact ⟨fun h => (List.nodup_cons.1 hnd).1 (h ▸ hy), hsep y (List.mem_cons_of_mem _ hy)⟩

theorem dedupFirst_ne_nil {l : List Str} (h : l ≠ []) : dedupFirst l ≠ [] := by
  cases l with
  | nil => exact absurd rfl h
  | cons x xs => simp [dedupFirst, dedupFirstAux]

/-- Index of the first occurrence of `u` in a list (the list's length
when `u` is absent). -/
def firstIdx (u : Str) : List Str → Nat
  | [] => 0
  | x :: xs => if x = u then 0 else firstIdx u xs + 1

/-- First-occurrence deduplication emits its entries in strictly
increasing order of first-occurrence index in the underlying list: the
entry kept for each value stands at the position of that value's first
appearance, so the output is in first-seen order (keep-last
deduplication violates this for `[a, b, a]`, whose keep-last output
`[b, a]` has decreasing first indices). -/
theorem pairwise_firstIdx_dedupFirstAux :
    ∀ (l seen : List Str),
      List.Pairwise (fun u v => firstIdx u l < firstIdx v l) (dedupFirstAux seen l) := by
  intro l
  induction l with
  | nil => intro seen; simp [dedupFirstAux]
  | cons x xs ih =>
    intro seen
    by_cases hx : x ∈ seen
    · rw [dedupFirstAux, if_pos hx]
      refine List.Pairwise.imp_of_mem ?_ (ih seen)
      intro u v hu hv huv
      have hux : x ≠ u := fun h => ((mem_dedupFirstAux xs seen).1 hu).2 (h ▸ hx)
      have hvx : x ≠ v := fun h => ((mem_dedupFirstAux xs seen).1 hv).2 (h ▸ hx)
      simp only [firstIdx, if_neg hux, if_neg hvx]
      omega
    · rw [dedupFirstAux, if_neg hx]
      refine List.pairwise_cons.2 ⟨?_, ?_⟩
      · intro v hv
        have hvx : x ≠ v := fun h =>
          ((mem_dedupFirstAux xs (x :: seen)).1 hv).2 (h ▸ List.mem_cons_self x seen)
        have h0 : firstIdx x (x :: xs) = 0 := by simp [firstIdx]
        have h1 : firstIdx v (x :: xs) = firstIdx v xs + 1 := by simp [firstIdx, if_neg hvx]
        rw [h0, h1]
        omega
      · refine List.Pairwise.imp_of_mem ?_ (ih (x :: seen))
        intro u v hu hv huv
        have hux : x ≠ u := fun h =>
          ((mem_dedupFirstAux xs (x :: seen)).1 hu).2 (h ▸ List.mem_cons_self x seen)
        have hvx : x ≠ v := fun h =>
          ((mem_dedupFirstAux xs (x :: seen)).1 hv).2 (h ▸ List.mem_cons_self x seen)
        simp only [firstIdx, if_neg hux, if_neg hvx]
        omega

/-!
Each parser loop is first-occurrence deduplication of its candidate
list: the `cache` set grows exactly when an element is kept, matching
`dedupFirstAux`. -/

theorem googleLoop_eq_dedup :
    ∀ (es : List Elem) (cache : List Str),
      googleLoop cache es = dedupFirstAux cache (googleCand es) := by
  intro es
  induction es with
  | nil => intro cache; rfl
  | cons e es ih =>
    intro cache
    cases hh : e.href with
    | none =>
      simp only [googleLoop, googleCand, hh]
      exact ih cache
    | some raw =>
      by_cases hraw : raw = []
      · simp only [googleLoop, googleCand, hh, if_pos hraw]
        exact ih cache
      · simp only [googleLoop, googleCand, hh, if_neg hraw]
        by_cases hcand : _normalize_url raw ≠ [] ∧
            ("http".toList).isPrefixOf (_normalize_url raw) = true
        · by_cases hmem : _normalize_url raw ∈ cache
          · rw [if_neg (fun hc => hc.2.1 hmem), if_pos hcand, dedupFirstAux, if_pos hmem]
            exact ih cache
          · rw [if_pos ⟨hcand.1, hmem, hcand.2⟩, if_pos hcand, dedupFirstAux, if_neg hmem]
            exact congrArg (_normalize_url raw :: ·) (ih (_normalize_url raw :: cache))
        · rw [if_neg (fun hc => hcand ⟨hc.1, hc.2.2⟩), if_neg hcand]
          exact ih cache

theorem bingLoop_eq_dedup :
    ∀ (es : List Elem) (cache : List Str),
      bingLoop cache es = dedupFirstAux cache (bingCand es) := by
  intro es
  induction es with
  | nil => intro cache; rfl
  | cons e es ih =>
    intro cache
    cases hh : e.href with
    | none =>
      simp only [bingLoop, bingCand, hh]
      exact ih cache
    | some raw =>
      by_cases hraw : raw = []
      · simp only [bingLoop, bingCand, hh, if_pos hraw]
        exact ih cache
      · simp only [bingLoop, bingCand, hh, if_neg hraw]
        by_cases hcand : _normalize_url raw ≠ [] ∧
            ("http".toList).isPrefixOf (_normalize_url raw) = true
        · by_cases hmem : _normalize_url raw ∈ cache
          · rw [if_neg (fun hc => hc.2.2 hmem), if_pos hcand, dedupFirstAux, if_pos hmem]
            exact ih cache
          · rw [if_pos ⟨hcand.1, hcand.2, hmem⟩, if_pos hcand, dedupFirstAux, if_neg hmem]
            exact congrArg (_normalize_url raw :: ·) (ih (_normalize_url raw :: cache))
        · rw [if_neg (fun hc => hcand ⟨hc.1, hc.2.1⟩), if_neg hcand]
          exact ih cache

theorem yahooLoop_eq_dedup :
    ∀ (es : List Elem) (cache : List Str),
      yahooLoop cache es = dedupFirstAux cache (yahooCand es) := by
  intro es
  induction es with
  | nil => intro cache; rfl
  | cons e es ih =>
    intro cache
    cases hh : e.href with
    | none =>
      simp only [yahooLoop, yahooCand, hh]
      exact ih cache
    | some raw =>
      by_cases hraw : raw = []
      · simp only [yahooLoop, yahooCand, hh, if_pos hraw]
        exact ih cache
      · simp only [yahooLoop, yahooCand, hh, if_neg hraw]
        by_cases hcand : _normalize_url raw ≠ [] ∧ e.cls = some ("d-ib v-v".toList)
        · by_cases hmem : _normalize_url raw ∈ cache
          · rw [if_neg (fun hc => hc.2.2 hmem), if_pos hcand, dedupFirstAux, if_pos hmem]
            exact ih cache
          · rw [if_pos ⟨hcand.1, hcand.2, hmem⟩, if_pos hcand, dedupFirstAux, if_neg hmem]
            exact congrArg (_normalize_url raw :: ·) (ih (_normalize_url raw :: cache))
        · rw [if_neg (fun hc => hcand ⟨hc.1, hc.2.1⟩), if_neg hcand]
          exact ih cache

theorem ddgLoop_eq_dedup :
    ∀ (es : List Elem) (cache : List Str),
      ddgLoop cache es = dedupFirstAux cache (ddgCand es) := by
  intro es
  induction es with
  | nil => intro cache; rfl
  | cons e es ih =>
    intro cache
    cases hh : e.href with
    | none =>
      simp only [ddgLoop, ddgCand, hh]
      exact ih cache
    | some raw =>
      by_cases hraw : raw = []
      · simp only [ddgLoop, ddgCand, hh, if_pos hraw]
        exact ih cache
      · simp only [ddgLoop, ddgCand, hh, if_neg hraw]
        by_cases hcand : _normalize_url raw ≠ []
        · by_cases hmem : _normalize_url raw ∈ cache
          · rw [if_neg (fun hc => hc.2 hmem), if_pos hcand, dedupFirstAux, if_pos hmem]
            exact ih cache
          · rw [if_pos ⟨hcand, hmem⟩, if_pos hcand, dedupFirstAux, if_neg hmem]
            exact congrArg (_normalize_url raw :: ·) (ih (_normalize_url raw :: cache))
        · rw [if_neg (fun hc => hcand hc.1), if_neg hcand]
          exact ih cache

/-- Every Google candidate starts with `"http"`. -/
theorem googleCand_starts_http :
    ∀ (es : List Elem) (u : Str), u ∈ googleCand es →
      ("http".toList).isPrefixOf u = true := by
  intro es
  induction es with
  | nil => intro u hu; simp [googleCand] at hu
  | cons e es ih =>
    intro u hu
    cases hh : e.href with
    | none =>
      rw [googleCand, hh] at hu
      exact ih u hu
    | some raw =>
      by_cases hraw : raw = []
      · simp only [googleCand, hh, if_pos hraw] at hu
        exact ih u hu
      · simp only [googleCand, hh, if_neg hraw] at hu
        by_cases hcand : _normalize_url raw ≠ [] ∧
            ("http".toList).isPrefixOf (_normalize_url raw) = true
        · rw [if_pos hcand] at hu
          rcases List.mem_cons.1 hu with rfl | hu
          · exact hcand.2
          · exact ih u hu
        · rw [if_neg hcand] at hu
          exact ih u hu

/-- Every Bing candidate starts with `"http"`. -/
theorem bingCand_starts_http :
    ∀ (es : List Elem) (u : Str), u ∈ bingCand es →
      ("http".toList).isPrefixOf u = true := by
  intro es
  induction es with
  | nil => intro u hu; simp [bingCand] at hu
  | cons e es ih =>
    intro u hu
    cases hh : e.href with
    | none =>
      rw [bingCand, hh] at hu
      exact ih u hu
    | some raw =>
      by_cases hraw : raw = []
      · simp only [bingCand, hh, if_pos hraw] at hu
        exact ih u hu
      · simp only [bingCand, hh, if_neg hraw] at hu
        by_cases hcand : _normalize_url raw ≠ [] ∧
            ("http".toList).isPrefixOf (_normalize_url raw) = true
        · rw [if_pos hcand] at hu
          rcases List.mem_cons.1 hu with rfl | hu
          · exact hcand.2
          · exact ih u hu
        · rw [if_neg hcand] at hu
          exact ih u hu

/-!
Lemmas about the thread-pool slot model. -/

theorem execSchedule_not_mem {task : Nat → α} :
    ∀ (order : List Nat) (slots : Nat → Option α) (i : Nat), i ∉ order →
      execSchedule task order slots i = slots i := by
  intro order
  induction order with
  | nil => intro slots i _; rfl
  | cons j rest ih =>
    intro slots i hi
    have hij : i ≠ j := fun h => hi (h ▸ List.mem_cons_self j rest)
    have hirest : i ∉ rest := fun h => hi (List.mem_cons_of_mem j h)
    rw [execSchedule, ih _ i hirest]
    simp [hij]

theorem execSchedule_mem {task : Nat → α} :
    ∀ (order : List Nat) (slots : Nat → Option α) (i : Nat), i ∈ order →
      execSchedule task order slots i = some (task i) := by
  intro order
  induction order with
  | nil => intro slots i hi; exact absurd hi (List.not_mem_nil i)
  | cons j rest ih =>
    intro slots i hi
    by_cases hirest : i ∈ rest
    · rw [execSchedule]
      exact ih _ i hirest
    · have hij : i = j := by
        rcases List.mem_cons.1 hi with h | h
        · exact h
        · exact absurd h hirest
      rw [execSchedule, execSchedule_not_mem rest _ i hirest]
      simp [hij]

/-- With a completed schedule, `bulk_search` is exactly one record per
query, in input order. -/
theorem bulk_search_eq_map (searchFn : Str → Except Str (List Str)) (queries : List Str)
    (order : List Nat) (hord : ∀ i < queries.length, i ∈ order) :
    bulk_search searchFn queries order
      = queries.map (fun q => some (_search_with_error_handling searchFn q)) := by
  unfold bulk_search
  refine List.ext_getElem (by simp) ?_
  intro n h1 h2
  simp only [List.getElem_map, List.getElem_range]
  have hn : n < queries.length := by simpa using h1
  rw [execSchedule_mem order _ n (hord n hn)]
  rw [List.getD_eq_getElem queries [] hn]

/-!
Lemmas about `subSearch` and `search`. -/

theorem subSearch_ok_length {env : Str → Except Str (Option (List Elem))} {p : Str} {k : Nat}
    {l : List Str} (h : subSearch env p k = .ok l) : l.length ≤ k := by
  unfold subSearch at h
  split at h
  · cases henv : env p <;> rw [henv] at h <;> simp [Except.map] at h
    rw [← h]; exact List.length_take_le k _
  · split at h
    · cases henv : env p <;> rw [henv] at h <;> simp [Except.map] at h
      rw [← h]; exact List.length_take_le k _
    · split at h
      · cases henv : env p <;> rw [henv] at h <;> simp [Except.map] at h
        rw [← h]; exact List.length_take_le k _
      · split at h
        · cases henv : env p <;> rw [henv] at h <;> simp [Except.map] at h
          rw [← h]; exact List.length_take_le k _
        · injection h with h
          rw [← h]
          simp

/-!
Lemmas about the stable descending sort. -/

/-- Descending content-length order. -/
def SortedDesc (l : List ExtractionRecord) : Prop :=
  List.Pairwise (fun a b => contentLen b ≤ contentLen a) l

theorem insertDesc_perm (x : ExtractionRecord) :
    ∀ l : List ExtractionRecord, (insertDesc x l).Perm (x :: l) := by
  intro l
  induction l with
  | nil => exact List.Perm.refl _
  | cons y ys ih =>
    by_cases h : contentLen y ≤ contentLen x
    · rw [insertDesc, if_pos h]
    · rw [insertDesc, if_neg h]
      exact (ih.cons y).trans (List.Perm.swap x y ys)

theorem pySortDesc_perm : ∀ l : List ExtractionRecord, (pySortDesc l).Perm l := by
  intro l
  induction l with
  | nil => exact List.Perm.refl _
  | cons x xs ih =>
    rw [pySortDesc]
    exact (insertDesc_perm x (pySortDesc xs)).trans (ih.cons x)

theorem insertDesc_sorted (x : ExtractionRecord) :
    ∀ l : List ExtractionRecord, SortedDesc l → SortedDesc (insertDesc x l) := by
  intro l
  induction l with
  | nil => intro _; simp [insertDesc, SortedDesc]
  | cons y ys ih =>
    intro hl
    rcases List.pairwise_cons.1 hl with ⟨hy, hys⟩
    by_cases h : contentLen y ≤ contentLen x
    · rw [insertDesc, if_pos h]
      refine List.pairwise_cons.2 ⟨?_, hl⟩
      intro z hz
      rcases List.mem_cons.1 hz with rfl | hz
      · exact h
      · exact le_trans (hy z hz) h
    · rw [insertDesc, if_neg h]
      refine List.pairwise_cons.2 ⟨?_, ih hys⟩
      intro z hz
      rcases List.mem_cons.1 ((insertDesc_perm x ys).mem_iff.1 hz) with rfl | hz
      · exact le_of_lt (lt_of_not_le h)
      · exact hy z hz

theorem pySortDesc_sorted : ∀ l : List ExtractionRecord, SortedDesc (pySortDesc l) := by
  intro l
  induction l with
  | nil => simp [pySortDesc, SortedDesc]
  | cons x xs ih =>
    rw [pySortDesc]
    exact insertDesc_sorted x (pySortDesc xs) ih

/-- Filtering on an exact content length commutes with a descending
insertion: the records of any fixed length keep their relative order. -/
theorem filter_insertDesc (x : ExtractionRecord) (n : Nat) :
    ∀ l : List ExtractionRecord,
      (insertDesc x l).filter (fun r => contentLen r == n)
        = (x :: l).filter (fun r => contentLen r == n) := by
  intro l
  induction l with
  | nil => rfl
  | cons y ys ih =>
    by_cases h : contentLen y ≤ contentLen x
    · rw [insertDesc, if_pos h]
    · rw [insertDesc, if_neg h]
      have hlt : contentLen x < contentLen y := lt_of_not_le h
      by_cases hyn : contentLen y = n
      · have hxn : ¬ contentLen x = n := by omega
        simp [List.filter_cons, ih, hyn, hxn]
      · simp [List.filter_cons, ih, hyn]

theorem filter_pySortDesc (n : Nat) :
    ∀ l : List ExtractionRecord,
      (pySortDesc l).filter (fun r => contentLen r == n)
        = l.filter (fun r => contentLen r == n) := by
  intro l
  induction l with
  | nil => rfl
  | cons x xs ih =>
    rw [pySortDesc, filter_insertDesc x n (pySortDesc xs)]
    simp only [List.filter_cons, ih]

/-!
Fixpoint lemmas for `_normalize_url`. -/

/-- The space-to-plus replacement is the identity on space-free strings. -/
theorem map_space_eq_self :
    ∀ l : Str, ' ' ∉ l → (l.map fun c => if c = ' ' then '+' else c) = l := by
  intro l
  induction l with
  | nil => intro _; rfl
  | cons c rest ih =>
    intro h
    have hc : c ≠ ' ' := fun hc => h (hc ▸ List.mem_cons_self c rest)
    have hrest : ' ' ∉ rest := fun hr => h (List.mem_cons_of_mem c hr)
    simp only [List.map_cons, if_neg hc, ih hrest]

/-- `unquote` is the identity on percent-free strings. -/
theorem unquote_eq_self : ∀ l : Str, '%' ∉ l → unquote l = l := by
  intro l
  induction l with
  | nil => intro _; rfl
  | cons c rest ih =>
    intro h
    have hc : c ≠ '%' := fun hc => h (hc ▸ List.mem_cons_self c rest)
    have hrest : '%' ∉ rest := fun hr => h (List.mem_cons_of_mem c hr)
    rw [unquote.eq_def]
    simp only [if_neg hc, ih hrest]

/-- Any output of `_normalize_url` that is free of percent signs, spaces
and redirect markers is a fixpoint of `_normalize_url`. -/
theorem normalize_fixpoint (y : Str) (h1 : pyContains ("uddg=http".toList) y = false)
    (h2 : pyContains ("/RU=http".toList) y = false) (h3 : ' ' ∉ y) (h4 : '%' ∉ y) :
    _normalize_url y = y := by
  unfold _normalize_url
  simp only [h1, h2, Bool.false_eq_true, if_false]
  by_cases hy : y.isEmpty = true
  · rw [if_pos hy]
    exact (List.isEmpty_iff.1 hy).symm
  · rw [if_neg hy, map_space_eq_self y h3, unquote_eq_self y h4]

/-!
Claim theorems. -/

/-- C1: for every sequence of input queries, every per-query search
outcome and every completion order of the concurrent per-query tasks
that executes each of them, `bulk_search(queries, n, combined=False)`
returns exactly one `SearchRecord` per query, and the record at every
position `i` is the record for query `i` (output order equals input
query order). -/
theorem C1_bulk_search_order (searchFn : Str → Except Str (List Str)) (queries : List Str)
    (order : List Nat) (hord : ∀ i < queries.length, i ∈ order) :
    bulk_search searchFn queries order
        = queries.map (fun q => some (_search_with_error_handling searchFn q)) ∧
      (bulk_search searchFn queries order).length = queries.length ∧
      ∀ i, i < queries.length →
        (bulk_search searchFn queries order).getD i none
          = some (_search_with_error_handling searchFn (queries.getD i [])) := by
  have h := bulk_search_eq_map searchFn queries order hord
  refine ⟨h, by rw [h]; simp, ?_⟩
  intro i hi
  rw [h, List.getD_eq_getElem _ none (by simpa using hi), List.getElem_map,
    List.getD_eq_getElem queries [] hi]

/-- Witness for C1 at a concrete input: two queries executed in reversed
completion order still yield the records in input order. -/
theorem C1_witness :
    bulk_search (fun q => Except.ok [q]) ["a".toList, "b".toList] [1, 0]
      = [some ⟨"a".toList, ["a".toList], none⟩, some ⟨"b".toList, ["b".toList], none⟩] := by
  have h := (C1_bulk_search_order (fun q => Except.ok [q]) ["a".toList, "b".toList] [1, 0]
    (by decide)).1
  rw [h]
  rfl

/-- C2 (code bug): when the search phase yields no URLs at all, the empty
list reaches `ThreadPoolExecutor(max_workers=len(urls))`, which raises
`ValueError: max_workers must be greater than 0` — so
`fetch_site_from_url_bulk` and `auto_search_and_extract` raise instead of
returning an empty well-formed sequence, contradicting the claim. -/
theorem C2_empty_url_list_raises (searchFn : Str → Except Str (List Str)) (queries : List Str)
    (sorder : List Nat) (extractor : Str → Option Str) (eorder oorder : List Nat)
    (h : bulk_search_combined searchFn queries sorder = []) :
    auto_search_and_extract searchFn queries sorder extractor eorder
        = .error ("ValueError: max_workers must be greater than 0".toList) ∧
      fetch_site_from_url_bulk extractor [] oorder
        = .error ("ValueError: max_workers must be greater than 0".toList) := by
  constructor
  · unfold auto_search_and_extract
    rw [h]
    rfl
  · rfl

/-- Witness for C2 at a concrete failing input: one query whose search
raises, so the combined URL list is empty and the pipeline raises
`ValueError`. -/
theorem C2_witness :
    auto_search_and_extract (fun _ => Except.error ("boom".toList)) ["a".toList] [0]
        (fun _ => none) []
        = .error ("ValueError: max_workers must be greater than 0".toList) ∧
      fetch_site_from_url_bulk (fun _ => none) [] []
        = .error ("ValueError: max_workers must be greater than 0".toList) :=
  C2_empty_url_list_raises (fun _ => Except.error ("boom".toList)) ["a".toList] [0]
    (fun _ => none) [] [] (by rfl)

/-- C3 counterexample: the DuckDuckGo parser keeps a relative URL — on a
result page whose `//div[h2]` element carries `href="/relative"`, the
parser output contains a URL that does not start with `"http"`, refuting
the claim for the DuckDuckGo (and likewise Yahoo) provider. -/
theorem C3_counterexample :
    _search_duckduckgo (some [⟨some ("/relative".toList), none⟩]) = [("/relative".toList)] ∧
      ("http".toList).isPrefixOf ("/relative".toList) = false := by decide

/-- C3 (amended): only the Google and Bing parsers guarantee that every
URL in their output starts with `"http"` after normalization; the Yahoo
and DuckDuckGo parsers do not enforce this prefix. -/
theorem C3_amended_http_invariant :
    (∀ (es : Option (List Elem)) (u : Str), u ∈ _search_google es →
        ("http".toList).isPrefixOf u = true) ∧
      ∀ (es : Option (List Elem)) (u : Str), u ∈ _search_bing es →
        ("http".toList).isPrefixOf u = true := by
  constructor
  · intro es u hu
    cases es with
    | none => simp [_search_google] at hu
    | some es =>
      have he : _search_google (some es) = dedupFirstAux [] (googleCand es) :=
        googleLoop_eq_dedup es []
      rw [he] at hu
      exact googleCand_starts_http es u ((mem_dedupFirstAux _ _).1 hu).1
  · intro es u hu
    cases es with
    | none => simp [_search_bing] at hu
    | some es =>
      have he : _search_bing (some es) = dedupFirstAux [] (bingCand es) :=
        bingLoop_eq_dedup es []
      rw [he] at hu
      exact bingCand_starts_http es u ((mem_dedupFirstAux _ _).1 hu).1

/-- Witness for the amended C3 at a concrete input. -/
theorem C3_witness :
    ("http://a.test".toList) ∈ _search_google (some [⟨some ("http://a.test".toList), none⟩]) ∧
      ("http".toList).isPrefixOf ("http://a.test".toList) = true :=
  ⟨by decide, C3_amended_http_invariant.1 (some [⟨some ("http://a.test".toList), none⟩])
    ("http://a.test".toList) (by decide)⟩

/-- C4 counterexample: `_normalize_url` is not idempotent — on `"%20"`
the first pass percent-decodes to `" "`, and the second pass turns the
space into `"+"`. -/
theorem C4_counterexample :
    _normalize_url (_normalize_url ("%20".toList)) ≠ _normalize_url ("%20".toList) := by decide

/-- C4 (amended): `_normalize_url` is idempotent on every input whose
normalized form contains no percent sign, no space, and neither redirect
marker (`uddg=http`, `/RU=http`); inputs whose normalized form still
contains decodable percent-escapes (such as `"%2520"` or `"%20"`) can
change under a second application. -/
theorem C4_amended_idempotent (x : Str)
    (h1 : pyContains ("uddg=http".toList) (_normalize_url x) = false)
    (h2 : pyContains ("/RU=http".toList) (_normalize_url x) = false)
    (h3 : ' ' ∉ _normalize_url x) (h4 : '%' ∉ _normalize_url x) :
    _normalize_url (_normalize_url x) = _normalize_url x :=
  normalize_fixpoint _ h1 h2 h3 h4

/-- Witness for the amended C4: a percent-escaped plain URL whose
normalized form is escape-free. -/
theorem C4_witness :
    _normalize_url (_normalize_url ("a%2Fb".toList)) = _normalize_url ("a%2Fb".toList) :=
  C4_amended_idempotent ("a%2Fb".toList) (by decide) (by decide) (by decide) (by decide)

/-- C5: in auto mode, whenever one of the two chosen sub-searches raises
and the other returns `L`, `search` returns `.ok` of `L` deduplicated in
first-seen order (exactly `L` when `L` has no duplicates — as every
concrete sub-search output — and non-empty when `L` is non-empty),
regardless of which side failed and of the completion order. -/
theorem C5_auto_resilience (env : Str → Except Str (Option (List Elem))) (chosen : Str × Str)
    (firstDone : Bool) (k : Nat) (m : Str) (L : List Str)
    (h : subSearch env chosen.1 k = .error m ∧ subSearch env chosen.2 k = .ok L ∨
      subSearch env chosen.1 k = .ok L ∧ subSearch env chosen.2 k = .error m) :
    search env ("auto".toList) k chosen firstDone = .ok (dedupFirst L) ∧
      (L.Nodup → search env ("auto".toList) k chosen firstDone = .ok L) ∧
      (L ≠ [] → dedupFirst L ≠ []) := by
  have hlen : L.length ≤ k := by
    rcases h with ⟨h1, h2⟩ | ⟨h1, h2⟩
    · exact subSearch_ok_length h2
    · exact subSearch_ok_length h1
  have htake : (dedupFirst L).take k = dedupFirst L :=
    List.take_of_length_le (le_trans (dedupFirstAux_length_le L []) hlen)
  have hmain : search env ("auto".toList) k chosen firstDone = .ok (dedupFirst L) := by
    unfold search
    rw [if_neg (by decide), if_pos rfl]
    rcases h with ⟨h1, h2⟩ | ⟨h1, h2⟩ <;> cases firstDone <;>
      simp only [h1, h2, autoCombine, collectOk, List.append_nil, htake]
  refine ⟨hmain, fun hnd => ?_, fun hne => dedupFirst_ne_nil hne⟩
  rw [hmain]
  exact congrArg Except.ok
    (dedupFirstAux_eq_self L [] hnd fun y _ => List.not_mem_nil y)

/-- Concrete environment for the C5 witness: the Google fetch always
raises, the other providers' pages hold one `http` link. -/
def envC5 : Str → Except Str (Option (List Elem)) := fun p =>
  if p = "google".toList then .error ("boom".toList)
  else .ok (some [⟨some ("http://a.test".toList), none⟩])

/-- Witness for C5 at a concrete input: chosen pair (google, duckduckgo)
with Google failing. -/
theorem C5_witness :
    search envC5 ("auto".toList) 3 (("google".toList, "duckduckgo".toList)) true
      = .ok [("http://a.test".toList)] :=
  (C5_auto_resilience envC5 (("google".toList, "duckduckgo".toList)) true 3 ("boom".toList)
    [("http://a.test".toList)] (Or.inl ⟨rfl, rfl⟩)).2.1 (by decide)

/-- C6: cap enforcement — for every provider string (concrete, auto or
unknown), every environment and every `num_results = k`, a successful
`search` returns at most `k` URLs, even when the parser yields more. -/
theorem C6_cap_enforcement (env : Str → Except Str (Option (List Elem))) (p : Str) (k : Nat)
    (chosen : Str × Str) (firstDone : Bool) (l : List Str)
    (h : search env p k chosen firstDone = .ok l) : l.length ≤ k := by
  unfold search at h
  split at h
  · exact subSearch_ok_length h
  · split at h
    · injection h with h
      rw [← h]
      exact List.length_take_le k _
    · injection h with h
      rw [← h]
      simp

/-- Witness for C6 at a concrete input: a Google page with two matching
anchors, `num_results = 1`, output of length 1. -/
theorem C6_witness : ([("http://a.test".toList)]).length ≤ 1 :=
  C6_cap_enforcement
    (fun _ => .ok (some [⟨some ("http://a.test".toList), none⟩,
      ⟨some ("http://b.test".toList), none⟩]))
    ("google".toList) 1 (("google".toList, "bing".toList)) true [("http://a.test".toList)]
    (by rfl)

/-- A parser satisfies the dedup contract: on any element list, its
output *is* the first-occurrence deduplication of the candidate list
(the normalized URLs of the anchors matching the provider's structural
rule) — `N − M` entries when `M` duplicate earlier ones, no duplicates,
a sublist of the candidates whose entries stand in strictly increasing
order of first-occurrence index in the candidate list (so each kept entry is the
first occurrence of its value, in order of first appearance; keep-last
deduplication fails this conjunct), containing exactly the candidate
values. -/
def ParserDedupOK (parse : Option (List Elem) → List Str) (cand : List Elem → List Str) :
    Prop :=
  ∀ es : List Elem,
    parse (some es) = dedupFirst (cand es) ∧
    (parse (some es)).length + dupCountAux [] (cand es) = (cand es).length ∧
    (parse (some es)).Nodup ∧
    (parse (some es)).Sublist (cand es) ∧
    List.Pairwise (fun u v => firstIdx u (cand es) < firstIdx v (cand es))
      (parse (some es)) ∧
    ∀ u : Str, u ∈ parse (some es) ↔ u ∈ cand es

/-- C7: each provider parser's output is exactly the first-occurrence
deduplication of its candidate list — `N − M` URLs on a page with `N`
matching anchors of which `M` duplicate earlier ones (by normalized URL,
case-sensitive), each appearing exactly once, in order of first
appearance in the document (entries strictly ordered by first index in
the candidate list). -/
theorem C7_parser_dedup :
    ParserDedupOK _search_google googleCand ∧ ParserDedupOK _search_bing bingCand ∧
      ParserDedupOK _search_yahoo yahooCand ∧ ParserDedupOK _search_duckduckgo ddgCand := by
  refine ⟨fun es => ?_, fun es => ?_, fun es => ?_, fun es => ?_⟩
  · have he : _search_google (some es) = dedupFirstAux [] (googleCand es) :=
      googleLoop_eq_dedup es []
    rw [he]
    refine ⟨rfl, (by simpa using length_dedupFirstAux_add_dupCount (googleCand es) []),
      nodup_dedupFirstAux (googleCand es) [], sublist_dedupFirstAux (googleCand es) [],
      pairwise_firstIdx_dedupFirstAux (googleCand es) [], fun u => ?_⟩
    rw [mem_dedupFirstAux]
    simp
  · have he : _search_bing (some es) = dedupFirstAux [] (bingCand es) :=
      bingLoop_eq_dedup es []
    rw [he]
    refine ⟨rfl, (by simpa using length_dedupFirstAux_add_dupCount (bingCand es) []),
      nodup_dedupFirstAux (bingCand es) [], sublist_dedupFirstAux (bingCand es) [],
      pairwise_firstIdx_dedupFirstAux (bingCand es) [], fun u => ?_⟩
    rw [mem_dedupFirstAux]
    simp
  · have he : _search_yahoo (some es) = dedupFirstAux [] (yahooCand es) :=
      yahooLoop_eq_dedup es []
    rw [he]
    refine ⟨rfl, (by simpa using length_dedupFirstAux_add_dupCount (yahooCand es) []),
      nodup_dedupFirstAux (yahooCand es) [], sublist_dedupFirstAux (yahooCand es) [],
      pairwise_firstIdx_dedupFirstAux (yahooCand es) [], fun u => ?_⟩
    rw [mem_dedupFirstAux]
    simp
  · have he : _search_duckduckgo (some es) = dedupFirstAux [] (ddgCand es) :=
      ddgLoop_eq_dedup es []
    rw [he]
    refine ⟨rfl, (by simpa using length_dedupFirstAux_add_dupCount (ddgCand es) []),
      nodup_dedupFirstAux (ddgCand es) [], sublist_dedupFirstAux (ddgCand es) [],
      pairwise_firstIdx_dedupFirstAux (ddgCand es) [], fun u => ?_⟩
    rw [mem_dedupFirstAux]
    simp

/-- C8: for every non-empty URL list and every completion order, the
output of `fetch_site_from_url_bulk` is exactly the collected successful
extraction records sorted stably by content length descending — a
permutation of the collected records (none dropped, none duplicated) in
which records of equal length keep their relative collection order. -/
theorem C8_bulk_extract_ranking (extractor : Str → Option Str) (urls : List Str)
    (order : List Nat) (h : urls ≠ []) :
    fetch_site_from_url_bulk extractor urls order
        = .ok (pySortDesc (collectExtractions extractor urls order)) ∧
      (pySortDesc (collectExtractions extractor urls order)).Perm
        (collectExtractions extractor urls order) ∧
      SortedDesc (pySortDesc (collectExtractions extractor urls order)) ∧
      ∀ n : Nat,
        (pySortDesc (collectExtractions extractor urls order)).filter
            (fun r => contentLen r == n)
          = (collectExtractions extractor urls order).filter (fun r => contentLen r == n) := by
  refine ⟨?_, pySortDesc_perm _, pySortDesc_sorted _, fun n => filter_pySortDesc n _⟩
  unfold fetch_site_from_url_bulk
  rw [if_neg (by simpa [List.isEmpty_iff] using h)]

/-- Witness for C8 at a concrete input. -/
theorem C8_witness :
    fetch_site_from_url_bulk (fun _ => some ("c".toList)) [("u".toList)] [0]
      = .ok [⟨"u".toList, "c".toList⟩] := by
  have h := (C8_bulk_extract_ranking (fun _ => some ("c".toList)) [("u".toList)] [0]
    (by decide)).1
  rw [h]
  rfl

/-- C9 (code bug): `_search_bing` writes the fetched result page to the
file `bing.html` (`search_engine.py` lines 59-60), so a Bing search does
not leave the filesystem unchanged, contradicting the claim. -/
theorem C9_bing_writes_file :
    searchFileWrites (fun _ => Except.ok none) ("bing".toList)
        (("google".toList, "yahoo".toList)) = [("bing.html".toList)] ∧
      searchFileWrites (fun _ => Except.ok none) ("bing".toList)
        (("google".toList, "yahoo".toList)) ≠ [] := by
  constructor
  · rfl
  · intro hc
    exact absurd hc (by decide)

/-- C10: calling `search` with a provider string that is none of
`'google'`, `'bing'`, `'yahoo'`, `'duckduckgo'`, `'auto'` returns the
empty list without raising, performs no fetch and writes no file. -/
theorem C10_unknown_provider (env : Str → Except Str (Option (List Elem))) (p : Str) (k : Nat)
    (chosen : Str × Str) (firstDone : Bool)
    (h : p ∉ [("google".toList), ("bing".toList), ("yahoo".toList), ("duckduckgo".toList),
      ("auto".toList)]) :
    search env p k chosen firstDone = .ok [] ∧ searchFetchCount p = 0 ∧
      searchFileWrites env p chosen = [] := by
  simp only [List.mem_cons, List.not_mem_nil, or_false, not_or] at h
  obtain ⟨hg, hb, hy, hd, ha⟩ := h
  have h1 : ¬(p = "google".toList ∨ p = "bing".toList ∨ p = "yahoo".toList ∨
      p = "duckduckgo".toList) := by
    rintro (hc | hc | hc | hc)
    · exact hg hc
    · exact hb hc
    · exact hy hc
    · exact hd hc
  refine ⟨?_, ?_, ?_⟩
  · unfold search
    rw [if_neg h1, if_neg ha]
  · unfold searchFetchCount
    rw [if_neg h1, if_neg ha]
  · unfold searchFileWrites
    rw [if_neg h1, if_neg ha]

/-- Witness for C10 at a concrete input. -/
theorem C10_witness :
    search (fun _ => Except.ok none) ("altavista".toList) 5
        (("google".toList, "bing".toList)) true = .ok [] ∧
      searchFetchCount ("altavista".toList) = 0 ∧
      searchFileWrites (fun _ => Except.ok none) ("altavista".toList)
        (("google".toList, "bing".toList)) = [] :=
  C10_unknown_provider (fun _ => Except.ok none) ("altavista".toList) 5
    (("google".toList, "bing".toList)) true (by decide)
